import Mathlib

/-!
Verification of the binance-btc-live-tracker sources (app.py and
bitcoin_current_price.py) against their design specification.

Shallow embedding conventions: timestamps are rationals (seconds),
prices are rationals, the one-slot tick queue is a list of length at
most one, and the feed-client reconnect loop is a step function over
the sequence of events each iteration of its try block can encounter.
-/

/-- Constant WINDOW_SECS from app.py line 22: the 20 minute x-axis window. -/
def WINDOW_SECS : ℚ := 20 * 60

/-- Constant Y_TICK_INTERVAL from app.py line 24: y-axis tick spacing. -/
def Y_TICK_INTERVAL : ℤ := 250

/-- X-axis range rule, app.py lines 110-118: while less than a full window
of data is on screen the range is anchored at the first timestamp;
afterwards it slides so that it ends at the current instant. -/
def xRange (first_utc now_utc : ℚ) : ℚ × ℚ :=
  if now_utc - first_utc < WINDOW_SECS then (first_utc, first_utc + WINDOW_SECS)
  else (now_utc - WINDOW_SECS, now_utc)

/-- Length of the stale prefix: the loop at app.py lines 121-123 advances i
while the entry at i has a timestamp strictly before x_start. -/
def trimCount (times : List ℚ) (x_start : ℚ) : Nat :=
  (times.takeWhile (fun t => decide (t < x_start))).length

/-- The two session-state lists backing History (app.py lines 28-31). -/
structure AppState where
  times : List ℚ
  prices : List ℚ
  deriving DecidableEq

/-- Attribute name under which the trimmed lists are stored back into the
session state (app.py lines 125-126). -/
def storeAttr : String := "session_state"

/-- Attribute name read back right after the store to refresh the local
variables: the source text of app.py line 127 is st.session_steate.times. -/
def readbackAttr : String := "session_steate"

/-- The trim step, app.py lines 120-128: count the stale prefix; when it is
non-empty, store the trimmed lists and then re-read them through
readbackAttr.  Reading any attribute other than the one the state is stored
under raises AttributeError in the host API, which the loop does not catch. -/
def trimStep (s : AppState) (x_start : ℚ) : Except String AppState :=
  let i := trimCount s.times x_start
  if i = 0 then .ok s
  else
    let s2 : AppState := ⟨s.times.drop i, s.prices.drop i⟩
    if readbackAttr = storeAttr then .ok s2 else .error "AttributeError"

/-- One History mutation performed by the render loop: appending a drained
observation (app.py lines 96-98) or the trim assignments (app.py 125-126). -/
inductive RenderOp
  | append (t : ℚ) (p : ℚ)
  | trim (x_start : ℚ)

/-- Apply one render-loop mutation to the session state. -/
def applyOp (s : AppState) : RenderOp → AppState
  | .append t p => ⟨s.times ++ [t], s.prices ++ [p]⟩
  | .trim x => ⟨s.times.drop (trimCount s.times x), s.prices.drop (trimCount s.times x)⟩

/-- The session state starts as two empty lists (app.py lines 28-31) and
evolves only by render-loop mutations. -/
def runOps (ops : List RenderOp) : AppState :=
  ops.foldl applyOp ⟨[], []⟩

/-- The drain loop of the producer, app.py lines 43-45: get_nowait until
the queue raises Empty, discarding everything it held. -/
def drainLoop {α : Type} : List α → List α
  | [] => []
  | _ :: q => drainLoop q

/-- put_nowait on the tick queue with maxsize 1 (app.py lines 34 and 47-50):
appends when there is room, otherwise Full is swallowed and nothing changes. -/
def put_nowait1 {α : Type} (q : List α) (x : α) : List α :=
  if q.length < 1 then q ++ [x] else q

/-- One producer delivery, app.py lines 41-50: drain the queue, then put
the fresh observation. -/
def producerPut {α : Type} (q : List α) (x : α) : List α :=
  put_nowait1 (drainLoop q) x

/-- The render-loop drain, app.py lines 94-101: get_nowait repeatedly,
appending each drained observation to History, until Empty. -/
def consumerDrain {α : Type} (hist : List α) : List α → List α
  | [] => hist
  | x :: q => consumerDrain (hist ++ [x]) q

/-- Low end of the y-axis range, app.py line 158:
int((ymin - Y_TICK_INTERVAL) // Y_TICK_INTERVAL) * Y_TICK_INTERVAL, with
float floor-division modelled as the exact rational floor. -/
def yLow (ymin : ℚ) : ℤ :=
  ⌊(ymin - (Y_TICK_INTERVAL : ℚ)) / (Y_TICK_INTERVAL : ℚ)⌋ * Y_TICK_INTERVAL

/-- High end of the y-axis range, app.py line 159:
int((ymax + Y_TICK_INTERVAL + Y_TICK_INTERVAL - 1) // Y_TICK_INTERVAL) *
Y_TICK_INTERVAL, with float floor-division modelled as the exact rational
floor. -/
def yHigh (ymax : ℚ) : ℤ :=
  ⌊(ymax + (Y_TICK_INTERVAL : ℚ) + (Y_TICK_INTERVAL : ℚ) - 1) / (Y_TICK_INTERVAL : ℚ)⌋
    * Y_TICK_INTERVAL

/-- The low formula exactly as the specification words it (section 4.3):
low = floor((min_price - Y_TICK) / Y_TICK) * Y_TICK. -/
def specYLow (ymin : ℚ) : ℤ :=
  ⌊(ymin - (Y_TICK_INTERVAL : ℚ)) / (Y_TICK_INTERVAL : ℚ)⌋ * Y_TICK_INTERVAL

/-- The high formula exactly as the specification words it (section 4.3):
high = ceil((max_price + Y_TICK) / Y_TICK) * Y_TICK. -/
def specYHigh (ymax : ℚ) : ℤ :=
  ⌈(ymax + (Y_TICK_INTERVAL : ℚ)) / (Y_TICK_INTERVAL : ℚ)⌉ * Y_TICK_INTERVAL

/-- Exception classes that can be raised inside the try block of
stream_latest_price (bitcoin_current_price.py lines 20-36). -/
inductive FeedExc
  | connectionClosedError
  | connectionClosedOK
  | invalidStatusCode
  | osError
  | jsonDecodeError
  | keyError
  | valueError
  deriving DecidableEq

/-- The except clause of bitcoin_current_price.py lines 30-33: only the
four connection-level exception classes are caught. -/
def caughtByFeed : FeedExc → Bool
  | .connectionClosedError => true
  | .connectionClosedOK => true
  | .invalidStatusCode => true
  | .osError => true
  | .jsonDecodeError => false
  | .keyError => false
  | .valueError => false

/-- An inbound websocket frame as the decode chain classifies it. -/
inductive WsMessage
  | valid (c : ℚ)
  | invalidJson
  | missingField
  | nonNumericField
  deriving DecidableEq

/-- The decode chain of bitcoin_current_price.py lines 27-28:
json.loads(msg), then the lookup of key c, then float(...); each stage
raises its own exception class on failure. -/
def processMessage : WsMessage → Except FeedExc ℚ
  | .valid c => .ok c
  | .invalidJson => .error .jsonDecodeError
  | .missingField => .error .keyError
  | .nonNumericField => .error .valueError

/-- What one iteration of the reconnect loop encountered inside its try
block: either websockets.connect itself raised, or the connection opened
(resetting backoff to 1) and the session later raised e.  Those are the
only two ways the body can end, since the message loop is infinite. -/
inductive FeedEvent
  | connectFail (e : FeedExc)
  | connected (e : FeedExc)
  deriving DecidableEq

/-- Feed-loop state: the current backoff (seconds) and the sleep durations
performed so far, in order. -/
structure FeedState where
  backoff : Nat
  sleeps : List Nat
  deriving DecidableEq

/-- One iteration of the while True loop of stream_latest_price
(bitcoin_current_price.py lines 19-36): exceptions in the except list
sleep backoff seconds and then double it with a cap of 32; any other
exception propagates out of the generator.  A successful open resets
backoff to 1 before the exception that ends the session is raised. -/
def feedIter (s : FeedState) : FeedEvent → Except FeedExc FeedState
  | .connectFail e =>
    if caughtByFeed e then .ok ⟨min (s.backoff * 2) 32, s.sleeps ++ [s.backoff]⟩
    else .error e
  | .connected e =>
    if caughtByFeed e then .ok ⟨min (1 * 2) 32, s.sleeps ++ [1]⟩
    else .error e

/-- Run the reconnect loop over a finite list of iteration events; a
result of .ok means the loop is still running afterwards, .error means an
exception escaped to the consumer of the generator. -/
def feedRun (s : FeedState) : List FeedEvent → Except FeedExc FeedState
  | [] => .ok s
  | ev :: evs =>
    match feedIter s ev with
    | .ok s2 => feedRun s2 evs
    | .error e => .error e

/-- The exception an iteration event carries. -/
def eventExc : FeedEvent → FeedExc
  | .connectFail e => e
  | .connected e => e

lemma drainLoop_eq_nil {α : Type} (q : List α) : drainLoop q = [] := by
  induction q with
  | nil => rfl
  | cons x q ih => exact ih

lemma producerPut_eq {α : Type} (q : List α) (x : α) : producerPut q x = [x] := by
  simp [producerPut, drainLoop_eq_nil, put_nowait1]

lemma foldl_producerPut {α : Type} (os : List α) (q : List α) :
    os.foldl producerPut q = os.getLast?.elim q (fun x => [x]) := by
  induction os generalizing q with
  | nil => rfl
  | cons a os ih =>
    rw [List.foldl_cons, producerPut_eq]
    cases os with
    | nil => rfl
    | cons b os2 =>
      rw [ih]
      rcases h : (b :: os2).getLast? with _ | l
      · exact absurd h (by simp)
      · rw [List.getLast?_cons_cons, h]
        rfl

lemma consumerDrain_eq_append {α : Type} (q hist : List α) :
    consumerDrain hist q = hist ++ q := by
  induction q generalizing hist with
  | nil => simp [consumerDrain]
  | cons x q ih => simp [consumerDrain, ih]

/-- Claim C1: with a non-empty History whose earliest timestamp is first,
the x-axis range is [first, first + window] while now - first < window,
and [now - window, now] afterwards (app.py lines 110-118). -/
theorem xaxis_fill_then_slide (times : List ℚ) (now : ℚ) (h : times ≠ []) :
    (now - times.head h < WINDOW_SECS →
      xRange (times.head h) now = (times.head h, times.head h + WINDOW_SECS)) ∧
    (WINDOW_SECS ≤ now - times.head h →
      xRange (times.head h) now = (now - WINDOW_SECS, now)) := by
  constructor
  · intro hc; simp [xRange, hc]
  · intro hc; simp [xRange, not_lt.mpr hc]

/-- Witness for claim C1 at first = 0, now = 100 (fill phase) and
first = 0, now = 2000 (slide phase). -/
theorem xaxis_fill_then_slide_witness :
    xRange 0 100 = (0, 0 + WINDOW_SECS) ∧
    xRange 0 2000 = (2000 - WINDOW_SECS, 2000) := by
  constructor
  · exact (xaxis_fill_then_slide [0] 100 (by simp)).1 (by norm_num [WINDOW_SECS])
  · exact (xaxis_fill_then_slide [0] 2000 (by simp)).2 (by norm_num [WINDOW_SECS])

/-- Claim C3 (code bug): trimming the History [(0, 100)] against
x_start = 800 (one stale entry) raises AttributeError instead of
completing: app.py line 127 reads st.session_steate, a misspelling of
st.session_state, so every pass that actually trims crashes the loop. -/
theorem trim_typo_attribute_error :
    trimStep ⟨[0], [100]⟩ 800 = .error "AttributeError" := rfl

/-- Claim C5: after put(o1), ..., put(on) with no intervening take, the
queue holds exactly the last observation (or nothing when n = 0), and the
render-loop drain appends exactly that one observation to History; the
coalesced earlier observations are gone from the queue, never retried. -/
theorem latest_wins {α : Type} (os hist : List α) :
    os.foldl producerPut [] = os.getLast?.toList ∧
    consumerDrain hist (os.foldl producerPut []) = hist ++ os.getLast?.toList := by
  have h1 : os.foldl producerPut [] = os.getLast?.toList := by
    rw [foldl_producerPut]
    cases os.getLast? <;> rfl
  exact ⟨h1, by rw [h1, consumerDrain_eq_append]⟩

/-- Claim C10: the times and prices lists have equal length in every state
reachable from the initial empty session state by render-loop appends
(app.py 96-98) and trims (app.py 125-126), since each operation adds or
removes entries at the same positions in both lists. -/
theorem history_lists_same_length (ops : List RenderOp) :
    (runOps ops).times.length = (runOps ops).prices.length := by
  suffices h : ∀ s : AppState, s.times.length = s.prices.length →
      (ops.foldl applyOp s).times.length = (ops.foldl applyOp s).prices.length by
    exact h ⟨[], []⟩ rfl
  induction ops with
  | nil => exact fun s hs => hs
  | cons op ops ih =>
    intro s hs
    rw [List.foldl_cons]
    apply ih
    cases op with
    | append t p => simp [applyOp, hs]
    | trim x => simp [applyOp, hs]

lemma min_double_cap (b : Nat) : min (min b 32 * 2) 32 = min (b * 2) 32 := by
  omega

lemma feedRun_pow (N k : Nat) (sl : List Nat) :
    feedRun ⟨min (2 ^ k) 32, sl⟩ (List.replicate N (.connectFail .osError)) =
      .ok ⟨min (2 ^ (k + N)) 32,
        sl ++ (List.range N).map (fun i => min (2 ^ (k + i)) 32)⟩ := by
  induction N generalizing k sl with
  | zero => simp [feedRun]
  | succ N ih =>
    rw [List.replicate_succ]
    have hstep : feedIter ⟨min (2 ^ k) 32, sl⟩ (.connectFail .osError) =
        .ok ⟨min (2 ^ (k + 1)) 32, sl ++ [min (2 ^ k) 32]⟩ := by
      simp only [feedIter, caughtByFeed, if_true]
      rw [min_double_cap, ← pow_succ]
    rw [feedRun, hstep]
    show feedRun ⟨min (2 ^ (k + 1)) 32, sl ++ [min (2 ^ k) 32]⟩
        (List.replicate N (.connectFail .osError)) = _
    rw [ih (k + 1) (sl ++ [min (2 ^ k) 32])]
    have hexp : ∀ i, k + 1 + i = k + (i + 1) := by omega
    have hrange : (List.range (N + 1)).map (fun i => min (2 ^ (k + i)) 32) =
        min (2 ^ k) 32 ::
          (List.range N).map (fun i => min (2 ^ (k + 1 + i)) 32) := by
      rw [List.range_succ_eq_map, List.map_cons, List.map_map]
      simp [Function.comp, hexp]
    rw [hrange]
    have : k + 1 + N = k + (N + 1) := by omega
    rw [this]
    simp

/-- Claim C2: starting from backoff 1, N consecutive connection failures
sleep 1, 2, 4, 8, 16, 32, 32, ... seconds, i.e. min(2^i, 32) before the
i-th reconnect attempt, and the backoff after them is min(2^N, 32); after
any successful connection open the backoff is reset, so the failure that
ends that session sleeps exactly 1 second before reconnecting
(bitcoin_current_price.py lines 17-36). -/
theorem backoff_sequence :
    (∀ N : Nat,
      feedRun ⟨1, []⟩ (List.replicate N (.connectFail .osError)) =
        .ok ⟨min (2 ^ N) 32, (List.range N).map (fun i => min (2 ^ i) 32)⟩) ∧
    (∀ s : FeedState,
      feedIter s (.connected .connectionClosedError) = .ok ⟨2, s.sleeps ++ [1]⟩) := by
  constructor
  · intro N
    have h := feedRun_pow N 0 []
    simpa using h
  · intro s
    rfl

/-- Claim C7 counterexample: a frame that fails JSON decoding raises
jsonDecodeError, which the except clause does not catch: the iteration
does not take the backoff-and-reconnect path (it is not .ok), refuting
the claim that malformed messages trigger reconnection. -/
theorem malformed_reconnect_cex :
    processMessage .invalidJson = .error .jsonDecodeError ∧
    (feedIter ⟨1, []⟩ (.connected .jsonDecodeError)).isOk = false := by
  exact ⟨rfl, rfl⟩

/-- Claim C7 as amended: every exception produced by the decode chain
(bad JSON, missing key c, non-numeric price) is outside the except list
of stream_latest_price, so it propagates out of the generator and
terminates the stream instead of triggering backoff-and-reconnect. -/
theorem malformed_propagates (s : FeedState) (m : WsMessage) (e : FeedExc)
    (h : processMessage m = .error e) :
    feedIter s (.connected e) = .error e := by
  cases m with
  | valid c => exact absurd h (by simp [processMessage])
  | invalidJson =>
    rw [show e = .jsonDecodeError by injection h with h2; exact h2.symm]; rfl
  | missingField =>
    rw [show e = .keyError by injection h with h2; exact h2.symm]; rfl
  | nonNumericField =>
    rw [show e = .valueError by injection h with h2; exact h2.symm]; rfl

/-- Witness for the amended claim C7: a frame missing the key c raises
keyError, which ends the stream. -/
theorem malformed_propagates_witness :
    feedIter ⟨1, []⟩ (.connected .keyError) = .error .keyError :=
  malformed_propagates ⟨1, []⟩ .missingField .keyError rfl

/-- Claim C8: as long as every exception the loop meets is a
connection-closed (normal or error), invalid-status, or OS-level error,
the loop keeps running (.ok): nothing propagates to the consumer of the
stream and the stream never terminates on its own
(bitcoin_current_price.py lines 19-36). -/
theorem caught_errors_never_propagate (s : FeedState) (evs : List FeedEvent)
    (h : ∀ ev ∈ evs, caughtByFeed (eventExc ev) = true) :
    ∃ s2 : FeedState, feedRun s evs = .ok s2 := by
  induction evs generalizing s with
  | nil => exact ⟨s, rfl⟩
  | cons ev evs ih =>
    have hev : caughtByFeed (eventExc ev) = true := h ev (by simp)
    have hrest : ∀ ev2 ∈ evs, caughtByFeed (eventExc ev2) = true :=
      fun ev2 hmem => h ev2 (by simp [hmem])
    cases ev with
    | connectFail e =>
      have : feedIter s (.connectFail e) =
          .ok ⟨min (s.backoff * 2) 32, s.sleeps ++ [s.backoff]⟩ := by
        simp [feedIter, eventExc] at hev ⊢
        simp [hev]
      rw [feedRun, this]
      exact ih _ hrest
    | connected e =>
      have : feedIter s (.connected e) =
          .ok ⟨min (1 * 2) 32, s.sleeps ++ [1]⟩ := by
        simp [feedIter, eventExc] at hev ⊢
        simp [hev]
      rw [feedRun, this]
      exact ih _ hrest

/-- Witness for claim C8: one failed connect (OS error) followed by one
session that ends with a normal connection close leaves the loop running. -/
theorem caught_errors_never_propagate_witness :
    ∃ s2 : FeedState,
      feedRun ⟨1, []⟩ [.connectFail .osError, .connected .connectionClosedOK] =
        .ok s2 :=
  caught_errors_never_propagate ⟨1, []⟩
    [.connectFail .osError, .connected .connectionClosedOK] (by decide)

lemma qfloor_eq (z : ℤ) (q : ℚ) (h1 : (z : ℚ) ≤ q) (h2 : q < (z : ℚ) + 1) :
    ⌊q⌋ = z :=
  Int.floor_eq_iff.mpr ⟨h1, h2⟩

lemma qceil_eq (z : ℤ) (q : ℚ) (h1 : (z : ℚ) - 1 < q) (h2 : q ≤ (z : ℚ)) :
    ⌈q⌉ = z :=
  Int.ceil_eq_iff.mpr ⟨h1, h2⟩

lemma qceil_eq_neg_floor (q : ℚ) : ⌈q⌉ = -⌊-q⌋ := by
  rw [Int.floor_neg, neg_neg]

lemma yLow_intCast (m : ℤ) : yLow (m : ℚ) = (m - 250) / 250 * 250 := by
  unfold yLow Y_TICK_INTERVAL
  have h : ((m : ℚ) - ((250 : ℤ) : ℚ)) / ((250 : ℤ) : ℚ)
      = ((m - 250 : ℤ) : ℚ) / ((250 : ℕ) : ℚ) := by
    push_cast; ring
  rw [h, Rat.floor_intCast_div_natCast]
  norm_num

lemma yHigh_intCast (m : ℤ) : yHigh (m : ℚ) = (m + 499) / 250 * 250 := by
  unfold yHigh Y_TICK_INTERVAL
  have h : ((m : ℚ) + ((250 : ℤ) : ℚ) + ((250 : ℤ) : ℚ) - 1) / ((250 : ℤ) : ℚ)
      = ((m + 499 : ℤ) : ℚ) / ((250 : ℕ) : ℚ) := by
    push_cast; ring
  rw [h, Rat.floor_intCast_div_natCast]
  norm_num

lemma specYHigh_intCast (m : ℤ) : specYHigh (m : ℚ) = -((-m - 250) / 250) * 250 := by
  unfold specYHigh Y_TICK_INTERVAL
  rw [qceil_eq_neg_floor]
  have h : -(((m : ℚ) + ((250 : ℤ) : ℚ)) / ((250 : ℤ) : ℚ))
      = ((-m - 250 : ℤ) : ℚ) / ((250 : ℕ) : ℚ) := by
    push_cast; ring
  rw [h, Rat.floor_intCast_div_natCast]
  norm_num

/-- Claim C4 counterexample: for the non-integer price 1/2 the code
computes high = 250, while the ceiling formula of the claim gives 500, so
the stated equality does not hold for all decimal prices. -/
theorem yhigh_ne_spec_ceil : yHigh (1 / 2) ≠ specYHigh (1 / 2) := by
  have h1 : yHigh (1 / 2) = 250 := by
    unfold yHigh Y_TICK_INTERVAL
    have h : ⌊((1 / 2 : ℚ) + ((250 : ℤ) : ℚ) + ((250 : ℤ) : ℚ) - 1) / ((250 : ℤ) : ℚ)⌋
        = 1 := qfloor_eq 1 _ (by norm_num) (by norm_num)
    rw [h]; norm_num
  have h2 : specYHigh (1 / 2) = 500 := by
    unfold specYHigh Y_TICK_INTERVAL
    have h : ⌈((1 / 2 : ℚ) + ((250 : ℤ) : ℚ)) / ((250 : ℤ) : ℚ)⌉ = 2 :=
      qceil_eq 2 _ (by norm_num) (by norm_num)
    rw [h]; norm_num
  rw [h1, h2]
  decide

/-- Claim C4 as amended: low is exactly the floor formula of the spec for
every price; high is floor((max + 2 Y_TICK - 1) / Y_TICK) * Y_TICK, which
agrees with the ceiling formula of the spec for every integer price (but
not for all decimal prices). -/
theorem yrange_formulas (q : ℚ) (m : ℤ) :
    yLow q = specYLow q ∧ yHigh (m : ℚ) = specYHigh (m : ℚ) := by
  refine ⟨rfl, ?_⟩
  rw [yHigh_intCast, specYHigh_intCast]
  omega

/-- Witness for the amended claim C4 at q = 1/2 and m = 100. -/
theorem yrange_formulas_witness :
    yLow (1 / 2) = specYLow (1 / 2) ∧
    yHigh ((100 : ℤ) : ℚ) = specYHigh ((100 : ℤ) : ℚ) :=
  yrange_formulas (1 / 2) 100

/-- Claim C6 counterexample: for the single price 501/2 = 250.5 the code
computes high = 500, which is below max_price + Y_TICK = 500.5, so the
full-tick upper margin does not hold for all decimal prices. -/
theorem yrange_high_margin_cex :
    ¬ ((501 : ℚ) / 2 + (Y_TICK_INTERVAL : ℚ) ≤ (yHigh (501 / 2) : ℚ)) := by
  have h1 : yHigh (501 / 2) = 500 := by
    unfold yHigh Y_TICK_INTERVAL
    have h : ⌊((501 / 2 : ℚ) + ((250 : ℤ) : ℚ) + ((250 : ℤ) : ℚ) - 1) / ((250 : ℤ) : ℚ)⌋
        = 2 := qfloor_eq 2 _ (by norm_num) (by norm_num)
    rw [h]; norm_num
  rw [h1]
  norm_num [Y_TICK_INTERVAL]

/-- Claim C6 as amended: low always sits at least one full tick below the
minimum; high sits at least one full tick above the maximum for integer
prices, and in general strictly more than Y_TICK - 1 above it; for the
prices 100 and 400 the range is exactly [-250, 750]. -/
theorem yrange_margin :
    (∀ q : ℚ, (yLow q : ℚ) ≤ q - (Y_TICK_INTERVAL : ℚ)) ∧
    (∀ m : ℤ, (m : ℚ) + (Y_TICK_INTERVAL : ℚ) ≤ (yHigh (m : ℚ) : ℚ)) ∧
    (∀ q : ℚ, q + (Y_TICK_INTERVAL : ℚ) - 1 < (yHigh q : ℚ)) ∧
    yLow 100 = -250 ∧ yHigh 400 = 750 := by
  refine ⟨?_, ?_, ?_, ?_, ?_⟩
  · intro q
    unfold yLow Y_TICK_INTERVAL
    push_cast
    have h := Int.floor_le ((q - 250) / 250)
    have h2 : (⌊(q - 250) / 250⌋ : ℚ) * 250 ≤ (q - 250) / 250 * 250 :=
      mul_le_mul_of_nonneg_right h (by norm_num)
    rw [div_mul_cancel₀] at h2
    · linarith
    · norm_num
  · intro m
    have h : m + 250 ≤ (m + 499) / 250 * 250 := by omega
    rw [yHigh_intCast]
    simp only [Y_TICK_INTERVAL]
    exact_mod_cast h
  · intro q
    unfold yHigh Y_TICK_INTERVAL
    push_cast
    have h := Int.sub_one_lt_floor ((q + 250 + 250 - 1) / 250)
    have h2 : ((q + 250 + 250 - 1) / 250 - 1) * 250 <
        (⌊(q + 250 + 250 - 1) / 250⌋ : ℚ) * 250 :=
      mul_lt_mul_of_pos_right h (by norm_num)
    have h3 : (q + 250 + 250 - 1) / 250 * 250 = q + 499 := by
      field_simp
      ring
    nlinarith
  · have h : yLow ((100 : ℤ) : ℚ) = -250 := by
      rw [yLow_intCast]; decide
    norm_num at h
    exact h
  · have h : yHigh ((400 : ℤ) : ℚ) = 750 := by
      rw [yHigh_intCast]; decide
    norm_num at h
    exact h

/-- Claim C9 counterexample: for the single price 300 the code computes
low = 0 and high = 750, so low is not high - 2 Y_TICK (the span here is
three ticks, not two). -/
theorem single_point_span_cex : yLow 300 ≠ yHigh 300 - 2 * Y_TICK_INTERVAL := by
  have hl : yLow 300 = 0 := by
    unfold yLow Y_TICK_INTERVAL
    have h : ⌊((300 : ℚ) - ((250 : ℤ) : ℚ)) / ((250 : ℤ) : ℚ)⌋ = 0 :=
      qfloor_eq 0 _ (by norm_num) (by norm_num)
    rw [h]; norm_num
  have hh : yHigh 300 = 750 := by
    unfold yHigh Y_TICK_INTERVAL
    have h : ⌊((300 : ℚ) + ((250 : ℤ) : ℚ) + ((250 : ℤ) : ℚ) - 1) / ((250 : ℤ) : ℚ)⌋
        = 3 := qfloor_eq 3 _ (by norm_num) (by norm_num)
    rw [h]; norm_num
  rw [hl, hh]
  decide

/-- Claim C9 as amended: for a History containing the single price p, the
computed span high - low is 2 Y_TICK exactly when p lies less than one
unit above a tick multiple (in particular at every tick multiple), and
3 Y_TICK otherwise; low == high - 2 Y_TICK does not hold for every p. -/
theorem single_point_span (p : ℚ) :
    yHigh p - yLow p =
      if p - (Y_TICK_INTERVAL : ℚ) * (⌊p / (Y_TICK_INTERVAL : ℚ)⌋ : ℚ) < 1 then
        2 * Y_TICK_INTERVAL
      else 3 * Y_TICK_INTERVAL := by
  have h250 : (0 : ℚ) < 250 := by norm_num
  have hlow : yLow p = (⌊p / 250⌋ - 1) * 250 := by
    unfold yLow Y_TICK_INTERVAL
    have h : (p - ((250 : ℤ) : ℚ)) / ((250 : ℤ) : ℚ) = p / 250 - ((1 : ℤ) : ℚ) := by
      push_cast; ring
    rw [h, Int.floor_sub_int]
  have hhigh : yHigh p = (⌊(p - 1) / 250⌋ + 2) * 250 := by
    unfold yHigh Y_TICK_INTERVAL
    have h : (p + ((250 : ℤ) : ℚ) + ((250 : ℤ) : ℚ) - 1) / ((250 : ℤ) : ℚ)
        = (p - 1) / 250 + ((2 : ℤ) : ℚ) := by
      push_cast; ring
    rw [h, Int.floor_add_int]
  have hFle : (⌊p / 250⌋ : ℚ) * 250 ≤ p := by
    have h := Int.floor_le (p / 250)
    have h2 : (⌊p / 250⌋ : ℚ) * 250 ≤ p / 250 * 250 :=
      mul_le_mul_of_nonneg_right h (by norm_num)
    rwa [div_mul_cancel₀ p (by norm_num : (250 : ℚ) ≠ 0)] at h2
  have hFlt : p < ((⌊p / 250⌋ : ℚ) + 1) * 250 := by
    have h := Int.lt_floor_add_one (p / 250)
    have h2 : p / 250 * 250 < ((⌊p / 250⌋ : ℚ) + 1) * 250 :=
      mul_lt_mul_of_pos_right h h250
    rwa [div_mul_cancel₀ p (by norm_num : (250 : ℚ) ≠ 0)] at h2
  simp only [Y_TICK_INTERVAL]
  rw [hlow, hhigh]
  push_cast
  split_ifs with hc
  · have hG : ⌊(p - 1) / 250⌋ = ⌊p / 250⌋ - 1 := by
      apply qfloor_eq
      · rw [le_div_iff₀ h250]
        push_cast
        linarith
      · rw [div_lt_iff₀ h250]
        push_cast
        linarith
    rw [hG]
    ring
  · have hnc := not_lt.mp hc
    have hG : ⌊(p - 1) / 250⌋ = ⌊p / 250⌋ := by
      apply qfloor_eq
      · rw [le_div_iff₀ h250]
        linarith
      · rw [div_lt_iff₀ h250]
        linarith
    rw [hG]
    ring

